import Mathlib

/-!
Verification development for the ToolStack Check-It checklist engine
(`src/src/App.jsx`).  The JavaScript core is shallowly embedded:

* parsed JSON values are modelled by `JsonVal` (JSON numbers are modelled
  as integers; no claim depends on float formatting);
* `JSON.parse` of the raw text is modelled by an `Option JsonVal` input
  (`none` = the parse threw, e.g. on the text "{not json"), and
  `JSON.stringify`/`JSON.parse` are treated as mutually inverse on the
  value level, so serialization is modelled by `docToJson`;
* JavaScript property access, truthiness, `||`, `??`, `String(...)`,
  `===` on JSON-derived values, `<` on strings (code-unit lexicographic),
  `trim`, `toLowerCase` and `includes` are modelled by the `js*`/`chars*`
  helpers below;
* statements that can throw a `TypeError` (property access on `null`,
  `.map` on a non-array) return `Except Unit`.

The React component state that the claims are about (title, sections,
the delete-confirmation modal and the drag ref) is `AppState`; each
state-updating closure of the component is a function `AppState → AppState`.
-/

namespace CheckIt

/-- A parsed JSON value (result of a successful `JSON.parse`). -/
inductive JsonVal where
  | null : JsonVal
  | bool (b : Bool) : JsonVal
  | num (n : Int) : JsonVal
  | str (s : String) : JsonVal
  | arr (elems : List JsonVal) : JsonVal
  | obj (fields : List (String × JsonVal)) : JsonVal

/-- Nullishness test: among parsed JSON values only `null` is nullish. -/
def isNullJs : JsonVal → Bool
  | JsonVal.null => true
  | _ => false

/-- JavaScript truthiness of a JSON value. -/
def jsTruthy : JsonVal → Bool
  | JsonVal.null => false
  | JsonVal.bool b => b
  | JsonVal.num n => n != 0
  | JsonVal.str s => s != ""
  | JsonVal.arr _ => true
  | JsonVal.obj _ => true

/-- Truthiness of a possibly-`undefined` value (`none` = `undefined`). -/
def jsTruthyOpt : Option JsonVal → Bool
  | none => false
  | some v => jsTruthy v

/-- Property access `v[k]` on a value already known not to be nullish:
`undefined` (`none`) on primitives and missing keys.  Access on `null`
throws in JavaScript; the callers below check for `null` first, matching
where the source can actually throw. -/
def getField : JsonVal → String → Option JsonVal
  | JsonVal.obj fields, k => fields.lookup k
  | _, _ => none

/-- JavaScript `x || d` where `x` may be `undefined`. -/
def jsOr (x : Option JsonVal) (d : JsonVal) : JsonVal :=
  match x with
  | none => d
  | some v => if jsTruthy v then v else d

/-- JavaScript `x ?? d` where `x` may be `undefined`. -/
def jsCoalesce (x : Option JsonVal) (d : JsonVal) : JsonVal :=
  match x with
  | none => d
  | some JsonVal.null => d
  | some v => v

mutual

/-- JavaScript `String(v)` on a JSON value. -/
def jsToString : JsonVal → String
  | JsonVal.null => "null"
  | JsonVal.bool true => "true"
  | JsonVal.bool false => "false"
  | JsonVal.num n => toString n
  | JsonVal.str s => s
  | JsonVal.arr xs => String.intercalate "," (jsArrParts xs)
  | JsonVal.obj _ => "[object Object]"

/-- Elements of `Array.prototype.join(",")`: `null` renders as the empty
string. -/
def jsArrParts : List JsonVal → List String
  | [] => []
  | JsonVal.null :: xs => "" :: jsArrParts xs
  | x :: xs => jsToString x :: jsArrParts xs

end

mutual

/-- JavaScript `===` on two JSON-derived values, modelled structurally.
For objects and arrays `===` is reference equality in JavaScript; in every
state this development reasons about, the compared values are strings
(ids produced by `uid()`), where `===` is value equality, so the
structural model agrees with the source there. -/
def jsonBeq : JsonVal → JsonVal → Bool
  | JsonVal.null, JsonVal.null => true
  | JsonVal.bool a, JsonVal.bool b => a == b
  | JsonVal.num a, JsonVal.num b => a == b
  | JsonVal.str a, JsonVal.str b => a == b
  | JsonVal.arr a, JsonVal.arr b => jsonListBeq a b
  | JsonVal.obj a, JsonVal.obj b => jsonFieldsBeq a b
  | _, _ => false

def jsonListBeq : List JsonVal → List JsonVal → Bool
  | [], [] => true
  | a :: as, b :: bs => jsonBeq a b && jsonListBeq as bs
  | _, _ => false

def jsonFieldsBeq : List (String × JsonVal) → List (String × JsonVal) → Bool
  | [], [] => true
  | (k1, v1) :: as, (k2, v2) :: bs => k1 == k2 && jsonBeq v1 v2 && jsonFieldsBeq as bs
  | _, _ => false

end

/-- The source's `safeParse(s, fallback)`: `JSON.parse` wrapped in
`try/catch` with a `?? fallback`.  The argument `r` is the outcome of
`JSON.parse` (`none` = it threw). -/
def safeParse (r : Option JsonVal) (fallback : JsonVal) : JsonVal :=
  match r with
  | none => fallback
  | some JsonVal.null => fallback
  | some v => v

/-- Code-unit lexicographic order on characters lists, as JavaScript's
`<` compares strings. -/
def charsLt : List Char → List Char → Bool
  | [], [] => false
  | [], _ :: _ => true
  | _ :: _, [] => false
  | a :: as, b :: bs =>
    if a.val < b.val then true
    else if b.val < a.val then false
    else charsLt as bs

/-- JavaScript `a < b` on strings. -/
def strLtJs (a b : String) : Bool := charsLt a.data b.data

/-- JavaScript lower-casing for the ASCII range (the search feature only
compares the results of applying this to both sides). -/
def charLowerJs (c : Char) : Char :=
  if 'A' ≤ c ∧ c ≤ 'Z' then Char.ofNat (c.toNat + 32) else c

/-- JavaScript `s.toLowerCase()`. -/
def strLowerJs (s : String) : String := String.mk (s.data.map charLowerJs)

/-- The WHATWG whitespace set trimmed by JavaScript's `String.prototype.trim`. -/
def jsWhitespace : List Char := [' ', '\t', '\n', '\r', '\x0b', '\x0c',
  Char.ofNat 0xa0, Char.ofNat 0x1680, Char.ofNat 0x2000, Char.ofNat 0x2001,
  Char.ofNat 0x2002, Char.ofNat 0x2003, Char.ofNat 0x2004, Char.ofNat 0x2005,
  Char.ofNat 0x2006, Char.ofNat 0x2007, Char.ofNat 0x2008, Char.ofNat 0x2009,
  Char.ofNat 0x200a, Char.ofNat 0x2028, Char.ofNat 0x2029, Char.ofNat 0x202f,
  Char.ofNat 0x205f, Char.ofNat 0x3000, Char.ofNat 0xfeff]

def isJsSpace (c : Char) : Bool := jsWhitespace.contains c

/-- JavaScript `s.trim()`. -/
def jsTrim (s : String) : String :=
  String.mk (((s.data.dropWhile isJsSpace).reverse.dropWhile isJsSpace).reverse)

/-- Substring test on character lists (JavaScript `includes`). -/
def charsContains (needle : List Char) : List Char → Bool
  | [] => needle.isEmpty
  | c :: rest => needle.isPrefixOf (c :: rest) || charsContains needle rest

/-- JavaScript `s.includes(sub)`. -/
def strIncludes (s sub : String) : Bool := charsContains sub.data s.data

/-! ## The checklist data model

`Item` and `Section` keep the source's field names.  The `id` fields stay
`JsonVal` because the import coercion `s.id || uid()` keeps a truthy `id`
of any JSON type verbatim; ids created by the app itself are always the
nonempty strings produced by `uid()`. -/

structure Item where
  id : JsonVal
  text : String
  done : Bool
  dueDate : String

structure Section where
  id : JsonVal
  name : String
  items : List Item

/-- The document the persistence adapter serializes: `{ title, sections }`. -/
structure Doc where
  title : String
  sections : List Section

/-- Value-level result of `JSON.stringify({title, sections})` (field order
is the creation order used throughout the source). -/
def itemToJson (it : Item) : JsonVal :=
  JsonVal.obj [("id", it.id), ("text", JsonVal.str it.text),
    ("done", JsonVal.bool it.done), ("dueDate", JsonVal.str it.dueDate)]

def sectionToJson (s : Section) : JsonVal :=
  JsonVal.obj [("id", s.id), ("name", JsonVal.str s.name),
    ("items", JsonVal.arr (s.items.map itemToJson))]

def docToJson (d : Doc) : JsonVal :=
  JsonVal.obj [("title", JsonVal.str d.title),
    ("sections", JsonVal.arr (d.sections.map sectionToJson))]

/-! ## The import migration (importJSON, lines 305-326)

`uid()` is random; it is modelled by a generator threaded through the
migration in the evaluation order of the source's object literals. -/

/-- Supply of fresh ids standing for successive `uid()` calls. -/
structure Gen where
  supply : Nat → String
  k : Nat

def Gen.next (g : Gen) : String × Gen :=
  (g.supply g.k, { g with k := g.k + 1 })

/-- The coercion `x.id || uid()`: a truthy `id` of any type is kept
verbatim, otherwise a fresh id is generated. -/
def coerceId (g : Gen) (v : Option JsonVal) : JsonVal × Gen :=
  match v with
  | some x =>
    if jsTruthy x then (x, g)
    else
      let (s, g') := g.next
      (JsonVal.str s, g')
  | none =>
    let (s, g') := g.next
    (JsonVal.str s, g')

/-- The coercion `String(it.text ?? "")`. -/
def coerceText (it : JsonVal) : String :=
  jsToString (jsCoalesce (getField it "text") (JsonVal.str ""))

/-- The coercion `!!it.done`. -/
def coerceDone (it : JsonVal) : Bool :=
  jsTruthyOpt (getField it "done")

/-- The coercion of `dueDate`: kept only if it is already a string. -/
def coerceDue (it : JsonVal) : String :=
  match getField it "dueDate" with
  | some (JsonVal.str s) => s
  | _ => ""

/-- One item of the `migrated` map.  Property access on a `null` element
throws a `TypeError` (`Except.error`). -/
def migrateItem (g : Gen) (it : JsonVal) : Except Unit (Item × Gen) :=
  if isNullJs it then Except.error ()
  else
    let (id, g') := coerceId g (getField it "id")
    Except.ok ({ id := id, text := coerceText it, done := coerceDone it,
                 dueDate := coerceDue it }, g')

def migrateItems (g : Gen) : List JsonVal → Except Unit (List Item × Gen)
  | [] => Except.ok ([], g)
  | it :: rest =>
    match migrateItem g it with
    | Except.error e => Except.error e
    | Except.ok (i, g') =>
      match migrateItems g' rest with
      | Except.error e => Except.error e
      | Except.ok (is, g'') => Except.ok (i :: is, g'')

/-- One section of the `migrated` map: `s.id` on a `null` element throws;
`(s.items || []).map` throws when `s.items` is truthy but not an array. -/
def migrateSection (g : Gen) (s : JsonVal) : Except Unit (Section × Gen) :=
  if isNullJs s then Except.error ()
  else
    let (id, g') := coerceId g (getField s "id")
    let name := jsToString (jsCoalesce (getField s "name") (JsonVal.str "Section"))
    match jsOr (getField s "items") (JsonVal.arr []) with
    | JsonVal.arr its =>
      match migrateItems g' its with
      | Except.error e => Except.error e
      | Except.ok (is, g'') => Except.ok ({ id := id, name := name, items := is }, g'')
    | _ => Except.error ()

def migrateSections (g : Gen) : List JsonVal → Except Unit (List Section × Gen)
  | [] => Except.ok ([], g)
  | s :: rest =>
    match migrateSection g s with
    | Except.error e => Except.error e
    | Except.ok (sec, g') =>
      match migrateSections g' rest with
      | Except.error e => Except.error e
      | Except.ok (secs, g'') => Except.ok (sec :: secs, g'')

/-- How the import pipeline can fail: the `notify("Invalid JSON")`
rejection (malformed JSON or no `sections` array), or an uncaught
`TypeError` thrown by the migration map. -/
inductive ImportError where
  | invalid : ImportError
  | crashed : ImportError

/-- The validation/migration pipeline of `importJSON` as a function of the
`JSON.parse` outcome: `safeParse(text, null)`, the
`!parsed || !Array.isArray(parsed.sections)` rejection, the `migrated`
map, and the title coercion `String(parsed.title || "Check-It")`. -/
def parseDocument (g : Gen) (r : Option JsonVal) : Except ImportError Doc :=
  let parsed := safeParse r JsonVal.null
  if jsTruthy parsed then
    match getField parsed "sections" with
    | some (JsonVal.arr secs) =>
      match migrateSections g secs with
      | Except.error _ => Except.error ImportError.crashed
      | Except.ok (newSections, _) =>
        Except.ok { title := jsToString (jsOr (getField parsed "title") (JsonVal.str "Check-It")),
                    sections := newSections }
    | _ => Except.error ImportError.invalid
  else Except.error ImportError.invalid

/-! ## The initial load (the `useState` initializer for `sections`, lines 142-160)

Unlike the import migration, the initializer spreads the stored objects
(`{...s, items: ...}`, `{...it, ...}`): section `id`/`name` and item `id`
are kept exactly as stored (including absent), extra fields survive, and
the result is in general not a well-typed document, so this path is
modelled at the `JsonVal` level. -/

/-- Own enumerable properties contributed by an object spread `{...v}`:
objects give their fields, arrays and strings give index-keyed entries,
primitives and `null` give nothing. -/
def spreadFields : JsonVal → List (String × JsonVal)
  | JsonVal.obj fields => fields
  | JsonVal.arr xs => (List.range xs.length).zip xs |>.map (fun p => (toString p.1, p.2))
  | JsonVal.str s => (List.range s.data.length).zip s.data |>.map
      (fun p => (toString p.1, JsonVal.str (String.mk [p.2])))
  | _ => []

/-- Setting a key in an object literal after a spread: an existing key is
overwritten in place, a new key is appended. -/
def objSet (fields : List (String × JsonVal)) (k : String) (v : JsonVal) :
    List (String × JsonVal) :=
  if fields.any (fun p => p.1 == k) then
    fields.map (fun p => if p.1 == k then (k, v) else p)
  else fields ++ [(k, v)]

/-- One stored item through the initializer:
`{...it, text: String(it.text ?? ""), done: !!it.done, dueDate: ...}`.
Property access on a stored `null` item throws. -/
def loadItem (it : JsonVal) : Except Unit (List (String × JsonVal)) :=
  if isNullJs it then Except.error ()
  else
    Except.ok (objSet (objSet (objSet (spreadFields it)
      "text" (JsonVal.str (coerceText it)))
      "done" (JsonVal.bool (coerceDone it)))
      "dueDate" (JsonVal.str (coerceDue it)))

def loadItems : List JsonVal → Except Unit (List JsonVal)
  | [] => Except.ok []
  | it :: rest =>
    match loadItem it with
    | Except.error e => Except.error e
    | Except.ok fs =>
      match loadItems rest with
      | Except.error e => Except.error e
      | Except.ok rest' => Except.ok (JsonVal.obj fs :: rest')

/-- One stored section through the initializer: `{...s, items: (s.items || []).map(...)}`.
`s.items` on a stored `null` section throws, and `.map` on a truthy
non-array `items` throws. -/
def loadSection (s : JsonVal) : Except Unit JsonVal :=
  if isNullJs s then Except.error ()
  else
    match jsOr (getField s "items") (JsonVal.arr []) with
    | JsonVal.arr its =>
      match loadItems its with
      | Except.error e => Except.error e
      | Except.ok its' => Except.ok (JsonVal.obj (objSet (spreadFields s) "items" (JsonVal.arr its')))
    | _ => Except.error ()

def loadSectionList : List JsonVal → Except Unit (List JsonVal)
  | [] => Except.ok []
  | s :: rest =>
    match loadSection s with
    | Except.error e => Except.error e
    | Except.ok s' =>
      match loadSectionList rest with
      | Except.error e => Except.error e
      | Except.ok rest' => Except.ok (s' :: rest')

/-- The seed sections (`base`), as stored JSON: one section "General"
with one placeholder item.  `sid`/`iid` stand for the two `uid()` calls. -/
def seedJson (sid iid : String) : List JsonVal :=
  [JsonVal.obj [("id", JsonVal.str sid), ("name", JsonVal.str "General"),
    ("items", JsonVal.arr [JsonVal.obj [("id", JsonVal.str iid),
      ("text", JsonVal.str "Add your first task"),
      ("done", JsonVal.bool false), ("dueDate", JsonVal.str "")]])]]

/-- The acceptance test of the initializer:
`data?.sections && Array.isArray(data.sections)`. -/
def loadAccepts (data : JsonVal) : Bool :=
  jsTruthyOpt (getField data "sections") &&
    (match getField data "sections" with
     | some (JsonVal.arr _) => true
     | _ => false)

/-- The `sections` produced at process start from the persistence slot.
`r` is the outcome of `JSON.parse` on the stored text (`none` = slot
absent or unparseable, in which case `data` is `null`). -/
def initialSections (sid iid : String) (r : Option JsonVal) : Except Unit (List JsonVal) :=
  let data := safeParse r JsonVal.null
  if loadAccepts data then
    match getField data "sections" with
    | some (JsonVal.arr secs) => loadSectionList secs
    | _ => Except.ok (seedJson sid iid)
  else Except.ok (seedJson sid iid)

/-- The `title` state at process start: `useState("Check-It")` — the
initializer never reads the persistence slot for the title. -/
def initialTitle : String := "Check-It"

/-! ## Application state and the Store operations -/

/-- The delete-confirmation modal state (`confirm`). -/
structure ConfirmState where
  open' : Bool
  sectionId : Option JsonVal

/-- The drag ref (`dragRef.current`): `{sectionId: null, fromIndex: null}`
when idle. -/
structure DragRef where
  sectionId : Option JsonVal
  fromIndex : Option Int

/-- The component state the claims are about. -/
structure AppState where
  title : String
  sections : List Section
  confirm : ConfirmState
  drag : DragRef

/-- The state at process start when the persistence slot is absent or
rejected: the seed document. -/
def seedState (sid iid : String) : AppState :=
  { title := "Check-It",
    sections := [Section.mk (JsonVal.str sid) "General"
      [Item.mk (JsonVal.str iid) "Add your first task" false ""]],
    confirm := { open' := false, sectionId := none },
    drag := { sectionId := none, fromIndex := none } }

/-- `setTitle` via the title input: replaces the title verbatim. -/
def setTitle (t : String) (st : AppState) : AppState :=
  { st with title := t }

/-- `addSection`: appends a section named after the current count; `newId`
stands for the `uid()` call. -/
def addSection (newId : String) (st : AppState) : AppState :=
  { st with sections := st.sections ++
      [{ id := JsonVal.str newId,
         name := "Section " ++ toString (st.sections.length + 1), items := [] }] }

/-- `renameSection(id, name)`. -/
def renameSection (target : JsonVal) (name : String) (st : AppState) : AppState :=
  { st with sections := st.sections.map (fun s =>
      if jsonBeq s.id target then { s with name := name } else s) }

/-- `requestDeleteSection(id)`: refused outright when only one section
exists, otherwise opens the confirmation modal. -/
def requestDeleteSection (target : JsonVal) (st : AppState) : AppState :=
  if st.sections.length = 1 then st
  else { st with confirm := { open' := true, sectionId := some target } }

/-- `deleteSectionNow`: removes the section recorded in the modal state
and closes the modal.  (The modal only renders while `confirm.open`.) -/
def deleteSectionNow (st : AppState) : AppState :=
  { st with
    sections := st.sections.filter (fun s =>
      match st.confirm.sectionId with
      | none => true
      | some target => !(jsonBeq s.id target)),
    confirm := { open' := false, sectionId := none } }

/-- Cancelling the confirmation modal. -/
def cancelDelete (st : AppState) : AppState :=
  { st with confirm := { open' := false, sectionId := none } }

/-- `addItem(sectionId)`; `newId` stands for the `uid()` call. -/
def addItem (target : JsonVal) (newId : String) (st : AppState) : AppState :=
  { st with sections := st.sections.map (fun s =>
      if jsonBeq s.id target then
        { s with items := s.items ++
            [{ id := JsonVal.str newId, text := "New item", done := false, dueDate := "" }] }
      else s) }

/-- The partial item updates the UI issues (`{ done: v }`, `{ text: ... }`,
`{ dueDate: ... }`). -/
structure ItemPatch where
  text : Option String
  done : Option Bool
  dueDate : Option String

def applyPatch (p : ItemPatch) (it : Item) : Item :=
  { it with
    text := p.text.getD it.text,
    done := p.done.getD it.done,
    dueDate := p.dueDate.getD it.dueDate }

/-- `updateItem(sectionId, itemId, patch)`: `{ ...it, ...patch }`. -/
def updateItem (target itemId : JsonVal) (p : ItemPatch) (st : AppState) : AppState :=
  { st with sections := st.sections.map (fun s =>
      if jsonBeq s.id target then
        { s with items := s.items.map (fun it =>
            if jsonBeq it.id itemId then applyPatch p it else it) }
      else s) }

/-- `deleteItem(sectionId, itemId)`. -/
def deleteItem (target itemId : JsonVal) (st : AppState) : AppState :=
  { st with sections := st.sections.map (fun s =>
      if jsonBeq s.id target then
        { s with items := s.items.filter (fun it => !(jsonBeq it.id itemId)) }
      else s) }

/-- The "Clear done" button: drops every completed item in every section. -/
def clearDone (st : AppState) : AppState :=
  { st with sections := st.sections.map (fun s =>
      { s with items := s.items.filter (fun it => !it.done) }) }

/-! ## Reordering (arrayMove, lines 32-40, and the drag handlers) -/

/-- `Math.max(0, Math.min(len - 1, i))`. -/
def clampIdx (len : Nat) (i : Int) : Nat :=
  (max 0 (min ((len : Int) - 1) i)).toNat

/-- The source's `arrayMove`: clamp both indices, return a copy unchanged
when they coincide, else splice the item out and splice it back in. -/
def arrayMove {α : Type} (arr : List α) (f t : Int) : List α :=
  let start := clampIdx arr.length f
  let stop := clampIdx arr.length t
  if start = stop then arr
  else
    match arr.get? start with
    | some x => (arr.eraseIdx start).insertIdx stop x
    | none => arr

/-- `onDragStartItem(sectionId, fromIndex)`: records the drag source. -/
def onDragStartItem (sid : JsonVal) (fromIndex : Int) (st : AppState) : AppState :=
  { st with drag := { sectionId := some sid, fromIndex := some fromIndex } }

/-- `onDropItem(sectionId, toIndex)`: no-op unless a drag is recorded
(`!fromSection || fromIndex == null`) and the target section matches the
source section; on a match, reorders and resets the drag ref. -/
def onDropItem (target : JsonVal) (toIndex : Int) (st : AppState) : AppState :=
  match st.drag.sectionId with
  | none => st
  | some fromSection =>
    if !(jsTruthy fromSection) then st
    else
      match st.drag.fromIndex with
      | none => st
      | some fromIndex =>
        if !(jsonBeq fromSection target) then st
        else
          { st with
            sections := st.sections.map (fun s =>
              if jsonBeq s.id target then { s with items := arrayMove s.items fromIndex toIndex }
              else s),
            drag := { sectionId := none, fromIndex := none } }

/-! ## Import at the state level -/

/-- What `importJSON` reports: the `notify("Invalid JSON")` rejection, a
`TypeError` escaping the migration map (unhandled promise rejection), or
the `notify("Imported")` success. -/
inductive ImportOutcome where
  | rejected : ImportOutcome
  | crashed : ImportOutcome
  | imported : ImportOutcome

/-- `importJSON(file)` given the outcome `r` of `JSON.parse` on the file
text: on rejection or crash the state is untouched; on success title and
sections are replaced atomically. -/
def importJSON (g : Gen) (r : Option JsonVal) (st : AppState) : AppState × ImportOutcome :=
  match parseDocument g r with
  | Except.error ImportError.invalid => (st, ImportOutcome.rejected)
  | Except.error ImportError.crashed => (st, ImportOutcome.crashed)
  | Except.ok d => ({ st with title := d.title, sections := d.sections }, ImportOutcome.imported)

/-! ## Derived views (totals, sectionTotals, filteredSections) -/

/-- `new Date().toISOString().slice(0, 10)` is kept abstract: the derived
views take the current date string as a parameter `t`. -/
structure Totals where
  total : Nat
  done : Nat
  left : Nat
  overdue : Nat

/-- The per-item test of the `overdue` accumulator:
`!it.done && it.dueDate && it.dueDate < t`. -/
def isOverdue (t : String) (it : Item) : Bool :=
  !it.done && it.dueDate != "" && strLtJs it.dueDate t

/-- The body of the `totals` loops. -/
def totalsStep (t : String) (acc : Nat × Nat × Nat) (it : Item) : Nat × Nat × Nat :=
  (acc.1 + 1,
   (if it.done then acc.2.1 + 1 else acc.2.1),
   (if isOverdue t it then acc.2.2 + 1 else acc.2.2))

/-- The `totals` memo: one scan over every item of every section.
`left` is `Math.max(0, total - done)`, which on naturals is truncated
subtraction. -/
def totals (t : String) (sections : List Section) : Totals :=
  let acc := sections.foldl (fun acc s => s.items.foldl (totalsStep t) acc) (0, 0, 0)
  { total := acc.1, done := acc.2.1, left := acc.1 - acc.2.1, overdue := acc.2.2 }

/-- One row of the `sectionTotals` memo. -/
structure SectionTotal where
  id : JsonVal
  total : Nat
  done : Nat
  left : Nat
  overdue : Nat

/-- The `sectionTotals` memo: the same classification scoped per section
(`filter(...).length` in the source). -/
def sectionTotals (t : String) (sections : List Section) : List SectionTotal :=
  sections.map (fun s =>
    { id := s.id,
      total := s.items.length,
      done := (s.items.filter (fun i => i.done)).length,
      left := s.items.length - (s.items.filter (fun i => i.done)).length,
      overdue := (s.items.filter (isOverdue t)).length })

/-- The mode predicate of `filteredSections` (`filter` is the raw mode
string; anything other than "today"/"overdue" behaves as "all"). -/
def passesFilter (filter t : String) (it : Item) : Bool :=
  if filter = "today" then !it.done && it.dueDate != "" && it.dueDate == t
  else if filter = "overdue" then !it.done && it.dueDate != "" && strLtJs it.dueDate t
  else true

/-- The search predicate of `filteredSections` against the prepared
query `q`. -/
def passesSearch (q : String) (it : Item) : Bool :=
  if q = "" then true
  else strIncludes (strLowerJs it.text) q

/-- The `filteredSections` memo: `q = search.trim().toLowerCase()`, then
each section keeps the items passing both predicates. -/
def filteredSections (search filter t : String) (sections : List Section) : List Section :=
  let q := strLowerJs (jsTrim search)
  sections.map (fun s =>
    { s with items := s.items.filter (fun it => passesFilter filter t it && passesSearch q it) })

/-- The `isFiltered` memo: `!!search.trim() || filter !== "all"`. -/
def isFiltered (search filter : String) : Bool :=
  jsTrim search != "" || filter != "all"

/-- The rejection test of `importJSON`:
`!parsed || !Array.isArray(parsed.sections)` over `parsed = safeParse(text, null)`
(true when `JSON.parse` threw, when it produced `null`, or when the parsed
value has no array-valued `sections` field). -/
def importRejects (r : Option JsonVal) : Bool :=
  let parsed := safeParse r JsonVal.null
  !(jsTruthy parsed) ||
    (match getField parsed "sections" with
     | some (JsonVal.arr _) => false
     | _ => true)

/-! ## Spec-side definitions (for refinement claims) -/

/-- Modelled from the spec (§4.5): clamp both indices into `[0, length-1]`
of the item sequence, remove the item at the clamped source index and
reinsert it at the clamped destination index (nothing to move on an empty
sequence). -/
def reorderSpec {α : Type} (arr : List α) (f t : Int) : List α :=
  match arr.get? (clampIdx arr.length f) with
  | none => arr
  | some x => (arr.eraseIdx (clampIdx arr.length f)).insertIdx (clampIdx arr.length t) x

/-- Modelled from the spec (§3): the overdue count is the number of items
that are not done, have a non-empty due date, and whose due date is
strictly less than today's date under lexicographic string comparison. -/
def overdueCount (t : String) (items : List Item) : Nat :=
  items.countP (fun it => !it.done && it.dueDate != "" && strLtJs it.dueDate t)

/-! ## Store reachability

One `Step` is one state update the UI layer can trigger, excluding
the import path (which is analysed separately).  Generated ids carry the
§4.1 contract of `uid()`: nonempty, and unique within the document at
creation time. -/

inductive Step : AppState → AppState → Prop where
  | set_title (st : AppState) (t : String) : Step st (setTitle t st)
  | add_section (st : AppState) (newId : String) (hne : newId ≠ "")
      (hfresh : JsonVal.str newId ∉ st.sections.map Section.id) :
      Step st (addSection newId st)
  | rename_section (st : AppState) (target : JsonVal) (name : String) :
      Step st (renameSection target name st)
  | request_delete (st : AppState) (target : JsonVal) :
      Step st (requestDeleteSection target st)
  | confirm_delete (st : AppState) (hopen : st.confirm.open' = true) :
      Step st (deleteSectionNow st)
  | cancel_delete (st : AppState) : Step st (cancelDelete st)
  | add_item (st : AppState) (target : JsonVal) (newId : String) (hne : newId ≠ "") :
      Step st (addItem target newId st)
  | update_item (st : AppState) (target itemId : JsonVal) (p : ItemPatch) :
      Step st (updateItem target itemId p st)
  | delete_item (st : AppState) (target itemId : JsonVal) :
      Step st (deleteItem target itemId st)
  | clear_done (st : AppState) : Step st (clearDone st)
  | drag_start (st : AppState) (sid : JsonVal) (fromIndex : Int) :
      Step st (onDragStartItem sid fromIndex st)
  | drop_item (st : AppState) (target : JsonVal) (toIndex : Int) :
      Step st (onDropItem target toIndex st)

/-- States reachable from `s0` by Store operations. -/
inductive Reachable (s0 : AppState) : AppState → Prop where
  | refl : Reachable s0 s0
  | step {st st' : AppState} : Reachable s0 st → Step st st' → Reachable s0 st'

/-- An id the app itself created: a nonempty string (`uid()` output). -/
def goodId (v : JsonVal) : Prop := ∃ s : String, s ≠ "" ∧ v = JsonVal.str s

/-- The inductive invariant of the Store: at least one section; the
confirmation modal only opens with at least two sections; section ids are
distinct nonempty strings; item ids are nonempty strings. -/
def Inv (st : AppState) : Prop :=
  1 ≤ st.sections.length ∧
  (st.confirm.open' = true → 2 ≤ st.sections.length) ∧
  (st.sections.map Section.id).Nodup ∧
  (∀ s ∈ st.sections, goodId s.id ∧ ∀ it ∈ s.items, goodId it.id)

/-! ## Concrete values used by witnesses and counterexamples -/

/-- A concrete id supply standing for `uid()`. -/
def gen0 : Gen := { supply := fun n => "fresh" ++ toString n, k := 0 }

/-- The throw-free shape of one candidate section (the hypothesis under
which the migration map cannot raise a `TypeError`): the element is not
`null`, and its `items` field — after the `|| []` default — is an array
of non-`null` elements. -/
def sectionSafe (s : JsonVal) : Bool :=
  !(isNullJs s) &&
    (match jsOr (getField s "items") (JsonVal.arr []) with
     | JsonVal.arr its => its.all (fun it => !(isNullJs it))
     | _ => false)

/-- Scenario-B style items. -/
def itemA : Item := { id := JsonVal.str "ia", text := "A", done := false, dueDate := "" }

def itemB : Item := { id := JsonVal.str "ib", text := "B", done := false, dueDate := "" }

def itemC : Item := { id := JsonVal.str "ic", text := "C", done := false, dueDate := "" }

/-- A state in the middle of a drag of item 0 of section "s1". -/
def dragCexState : AppState :=
  { seedState "s1" "i1" with
    drag := { sectionId := some (JsonVal.str "s1"), fromIndex := some 0 } }

/-- A Store-reachable state whose title is the empty string. -/
def c2CexState : AppState := setTitle "" (seedState "a" "b")

/-- A persisted slot whose title and section names are dropped/defaulted
differently by the two code paths. -/
def c3Slot : JsonVal :=
  JsonVal.obj [("title", JsonVal.str "My List"),
    ("sections", JsonVal.arr [JsonVal.obj [("id", JsonVal.str "a"),
      ("items", JsonVal.arr [])]])]

/-- A candidate section exercising the lenient coercions (Scenario E
shapes): no `id`, a string `name`, an item with truthy-string `done` and a
numeric `dueDate`. -/
def c4SafeSec : JsonVal :=
  JsonVal.obj [("name", JsonVal.str "X"),
    ("items", JsonVal.arr [JsonVal.obj [("text", JsonVal.str "t"),
      ("done", JsonVal.str "yes"), ("dueDate", JsonVal.num 5)]])]

/-- A parsed import value that passes step 2 and is throw-free. -/
def c4SafeVal : JsonVal :=
  JsonVal.obj [("sections", JsonVal.arr [c4SafeSec])]

/-! # Helper lemmas -/

theorem ins_erase {α : Type} (l : List α) (n : Nat) (h : n < l.length) :
    (l.eraseIdx n).insertIdx n (l.get ⟨n, h⟩) = l := by
  induction l generalizing n with
  | nil => simp at h
  | cons a t ih =>
    cases n with
    | zero => simp [List.eraseIdx, List.insertIdx]
    | succ m =>
      simp only [List.eraseIdx, List.get, List.insertIdx]
      simp at h
      have := ih m h
      simp [List.insertIdx] at this ⊢
      exact this

/-! # Claim theorems -/

/-- C6: deleting the sole remaining section is refused: the state is not
mutated and the section count remains 1.  (The refusal is the silent
early return of `requestDeleteSection`, which the spec's error taxonomy
names `LastSectionError`; no error value exists in the code, matching
§7's "silently refused at the Store level".) -/
theorem c6_last_section_delete_refused (target : JsonVal) (st : AppState)
    (h : st.sections.length = 1) :
    requestDeleteSection target st = st ∧
    (requestDeleteSection target st).sections.length = 1 := by
  simp [requestDeleteSection, h]

theorem c6_last_section_delete_refused_witness :
    (seedState "a" "b").sections.length = 1 ∧
    (requestDeleteSection (JsonVal.str "a") (seedState "a" "b") = seedState "a" "b" ∧
      (requestDeleteSection (JsonVal.str "a") (seedState "a" "b")).sections.length = 1) :=
  ⟨rfl, c6_last_section_delete_refused (JsonVal.str "a") (seedState "a" "b") rfl⟩

/-- C5: an import whose text is rejected (malformed JSON, or a parsed
value without an array-valued `sections` field) leaves the current state
completely unchanged and reports the failure (`notify("Invalid JSON")`). -/
theorem c5_rejected_import_is_noop (g : Gen) (r : Option JsonVal) (st : AppState)
    (h : importRejects r = true) :
    importJSON g r st = (st, ImportOutcome.rejected) := by
  unfold importRejects at h
  by_cases ht : jsTruthy (safeParse r JsonVal.null)
  · cases hg : getField (safeParse r JsonVal.null) "sections" with
    | none => simp [importJSON, parseDocument, ht, hg]
    | some v =>
      cases v with
      | arr secs =>
        simp only [ht, Bool.not_true, Bool.false_or, hg] at h
        simp at h
      | null => simp [importJSON, parseDocument, ht, hg]
      | bool b => simp [importJSON, parseDocument, ht, hg]
      | num n => simp [importJSON, parseDocument, ht, hg]
      | str s => simp [importJSON, parseDocument, ht, hg]
      | obj fields => simp [importJSON, parseDocument, ht, hg]
  · simp [importJSON, parseDocument, ht]

theorem c5_rejected_import_is_noop_witness :
    importRejects none = true ∧
    importJSON gen0 none (seedState "a" "b") = (seedState "a" "b", ImportOutcome.rejected) :=
  ⟨rfl, c5_rejected_import_is_noop gen0 none (seedState "a" "b") rfl⟩

/-- C7: `arrayMove` computes exactly the spec's description — clamp both
indices into `[0, length-1]`, remove at the clamped source, reinsert at
the clamped destination; when the clamped indices coincide the sequence
is unchanged; and on `[A, B, C]` moving 0 to 2 yields `[B, C, A]`. -/
theorem c7_reorder_matches_spec :
    (∀ (arr : List Item) (f t : Int), arrayMove arr f t = reorderSpec arr f t) ∧
    (∀ (arr : List Item) (f t : Int),
      clampIdx arr.length f = clampIdx arr.length t → arrayMove arr f t = arr) ∧
    arrayMove [itemA, itemB, itemC] 0 2 = [itemB, itemC, itemA] := by
  refine ⟨?_, ?_, rfl⟩
  · intro arr f t
    unfold arrayMove reorderSpec
    by_cases h : clampIdx arr.length f = clampIdx arr.length t
    · rw [if_pos h]
      cases hg : arr.get? (clampIdx arr.length f) with
      | none => rfl
      | some x =>
        obtain ⟨hlt, hx⟩ := List.get?_eq_some.mp hg
        rw [← h, ← hx]
        exact (ins_erase arr _ hlt).symm
    · rw [if_neg h]
      cases arr.get? (clampIdx arr.length f) <;> rfl
  · intro arr f t h
    unfold arrayMove
    rw [if_pos h]

theorem c7_reorder_matches_spec_witness :
    clampIdx 1 5 = clampIdx 1 9 ∧ arrayMove [itemA] 5 9 = [itemA] :=
  ⟨rfl, c7_reorder_matches_spec.2.1 [itemA] 5 9 rfl⟩

/-- C8 (amended): after a drop the resolver state is idle exactly when
the drop was accepted — a drag was recorded with a truthy source section
matching the target section (the accepted case includes the same-position
no-op move); any other drop returns early and leaves the whole state, in
particular the recorded drag, unchanged; so a drop on a section different
from the drag's source section does not return the resolver to idle. -/
theorem c8_drop_reset (target : JsonVal) (toIndex : Int) (st : AppState) :
    ((∃ (sid : JsonVal) (i : Int), st.drag = DragRef.mk (some sid) (some i) ∧
        jsTruthy sid = true ∧ jsonBeq sid target = true) →
      (onDropItem target toIndex st).drag = DragRef.mk none none) ∧
    ((¬ ∃ (sid : JsonVal) (i : Int), st.drag = DragRef.mk (some sid) (some i) ∧
        jsTruthy sid = true ∧ jsonBeq sid target = true) →
      onDropItem target toIndex st = st) ∧
    (∀ (sid : JsonVal) (i : Int), st.drag = DragRef.mk (some sid) (some i) →
      jsTruthy sid = true → jsonBeq sid target = false →
      onDropItem target toIndex st = st) := by
  obtain ⟨ti, secs, conf, dsid, dfi⟩ := st
  refine ⟨?_, ?_, ?_⟩
  · rintro ⟨sid, i, hdrag, htr, hbe⟩
    simp only [DragRef.mk.injEq] at hdrag
    obtain ⟨h1, h2⟩ := hdrag
    subst h1 h2
    simp [onDropItem, htr, hbe]
  · intro hne
    cases dsid with
    | none => rfl
    | some fromSection =>
      by_cases htr : jsTruthy fromSection = true
      · cases dfi with
        | none => simp [onDropItem, htr]
        | some fromIndex =>
          by_cases hbe : jsonBeq fromSection target = true
          · exact absurd ⟨fromSection, fromIndex, rfl, htr, hbe⟩ hne
          · have hbe' : jsonBeq fromSection target = false := by
              cases hx : jsonBeq fromSection target with
              | false => rfl
              | true => exact absurd hx hbe
            simp [onDropItem, htr, hbe']
      · have htr' : jsTruthy fromSection = false := by
          cases hx : jsTruthy fromSection with
          | false => rfl
          | true => exact absurd hx htr
        simp [onDropItem, htr']
  · intro sid i hdrag htr hne
    simp only [DragRef.mk.injEq, Option.some.injEq] at hdrag
    obtain ⟨h1, h2⟩ := hdrag
    subst h1 h2
    simp [onDropItem, htr, hne]

theorem c8_drop_reset_witness :
    dragCexState.drag = DragRef.mk (some (JsonVal.str "s1")) (some 0) ∧
    jsTruthy (JsonVal.str "s1") = true ∧
    jsonBeq (JsonVal.str "s1") (JsonVal.str "s2") = false ∧
    onDropItem (JsonVal.str "s2") 0 dragCexState = dragCexState ∧
    jsonBeq (JsonVal.str "s1") (JsonVal.str "s1") = true ∧
    (onDropItem (JsonVal.str "s1") 0 dragCexState).drag = DragRef.mk none none :=
  ⟨rfl, rfl, rfl,
    (c8_drop_reset (JsonVal.str "s2") 0 dragCexState).2.2 (JsonVal.str "s1") 0 rfl rfl rfl,
    rfl,
    (c8_drop_reset (JsonVal.str "s1") 0 dragCexState).1
      ⟨JsonVal.str "s1", 0, rfl, rfl, rfl⟩⟩

/-- C8 counterexample: a cross-section drop does not return the resolver
to idle — the early return skips the `dragRef.current` reset, so the
stored section id and index survive the drop. -/
theorem c8_counterexample_cross_section_drop :
    (onDropItem (JsonVal.str "s2") 0 dragCexState).drag.sectionId = some (JsonVal.str "s1") ∧
    (onDropItem (JsonVal.str "s2") 0 dragCexState).drag.fromIndex = some 0 :=
  ⟨rfl, rfl⟩

theorem totals_items_fold (t : String) (l : List Item) (a b c : Nat) :
    l.foldl (totalsStep t) (a, b, c) =
      (a + l.length, b + l.countP (fun i => i.done), c + l.countP (isOverdue t)) := by
  induction l generalizing a b c with
  | nil => simp
  | cons x xs ih =>
    simp only [List.foldl_cons, List.countP_cons, List.length_cons, totalsStep]
    rw [ih]
    refine Prod.ext ?_ (Prod.ext ?_ ?_) <;> simp
    · omega
    · split_ifs <;> omega
    · split_ifs <;> omega

theorem totals_sections_fold (t : String) (secs : List Section) (a b c : Nat) :
    secs.foldl (fun acc s => s.items.foldl (totalsStep t) acc) (a, b, c) =
      (a + ((secs.map Section.items).flatten).length,
       b + ((secs.map Section.items).flatten).countP (fun i => i.done),
       c + ((secs.map Section.items).flatten).countP (isOverdue t)) := by
  induction secs generalizing a b c with
  | nil => simp
  | cons s rest ih =>
    simp only [List.foldl_cons, List.map_cons, List.flatten_cons, List.countP_append,
      List.length_append]
    rw [totals_items_fold, ih]
    refine Prod.ext ?_ (Prod.ext ?_ ?_) <;> simp <;> omega

/-- C9: the overdue total computed by the `totals` scan equals the spec's
declarative count (not done, non-empty due date, due date lexicographically
before today) over all items; the same holds for every per-section overdue
total; and marking any item done removes it from the count. -/
theorem c9_overdue_counting (t : String) (secs : List Section) :
    (totals t secs).overdue = overdueCount t ((secs.map Section.items).flatten) ∧
    (sectionTotals t secs).map SectionTotal.overdue =
      secs.map (fun s => overdueCount t s.items) ∧
    (∀ it : Item, overdueCount t [{ it with done := true }] = 0) := by
  refine ⟨?_, ?_, ?_⟩
  · unfold totals
    rw [totals_sections_fold]
    show 0 + ((secs.map Section.items).flatten).countP (isOverdue t) = _
    rw [Nat.zero_add]
    rfl
  · unfold sectionTotals overdueCount
    rw [List.map_map]
    refine List.map_congr_left ?_
    intro s _
    exact (List.countP_eq_length_filter _ _).symm
  · intro it
    simp [overdueCount]

theorem dropWhile_idem (p : Char → Bool) (l : List Char) :
    (l.dropWhile p).dropWhile p = l.dropWhile p := by
  induction l with
  | nil => rfl
  | cons a t ih =>
    by_cases h : p a
    · simp [List.dropWhile_cons, h, ih]
    · simp [List.dropWhile_cons, h]

theorem head?_dropWhile_false (p : Char → Bool) (l : List Char) (a : Char)
    (h : (l.dropWhile p).head? = some a) : p a = false := by
  induction l with
  | nil => simp [List.dropWhile] at h
  | cons x t ih =>
    by_cases hx : p x
    · apply ih
      simpa [List.dropWhile_cons, hx] using h
    · simp [List.dropWhile_cons, hx] at h
      rw [← h]
      simpa using hx

theorem dropWhile_eq_self_of_head (p : Char → Bool) (l : List Char)
    (h : ∀ a, l.head? = some a → p a = false) : l.dropWhile p = l := by
  cases l with
  | nil => rfl
  | cons x t => simp [List.dropWhile_cons, h x rfl]

theorem trimCore_idem (p : Char → Bool) (l : List Char) :
    (((((l.dropWhile p).reverse.dropWhile p).reverse.dropWhile p).reverse.dropWhile p).reverse) =
      ((l.dropWhile p).reverse.dropWhile p).reverse := by
  set r := l.dropWhile p with hr
  set d := r.reverse.dropWhile p with hd
  have hsplit : (r.reverse.takeWhile p) ++ d = r.reverse := by
    rw [hd]
    exact List.takeWhile_append_dropWhile p r.reverse
  have hrr : r = d.reverse ++ (r.reverse.takeWhile p).reverse := by
    have h2 := congrArg List.reverse hsplit
    simp only [List.reverse_append, List.reverse_reverse] at h2
    exact h2.symm
  have hstep1 : d.reverse.dropWhile p = d.reverse := by
    apply dropWhile_eq_self_of_head
    intro a ha
    have hrh : r.head? = some a := by
      rw [hrr]
      cases hdr : d.reverse with
      | nil => rw [hdr] at ha; simp at ha
      | cons c cs =>
        rw [hdr] at ha
        simp at ha
        simp [ha]
    exact head?_dropWhile_false p l a (by rw [← hr]; exact hrh)
  rw [hstep1, List.reverse_reverse, hd, dropWhile_idem]

theorem jsTrim_idem (s : String) : jsTrim (jsTrim s) = jsTrim s := by
  unfold jsTrim
  exact congrArg String.mk (trimCore_idem isJsSpace s.data)

/-- C10 (implicit claim): the filtered projection is invariant under
trimming the search string — the query is trimmed before matching — and a
whitespace-only search behaves exactly like the empty search. -/
theorem c10_search_trim_invariant (secs : List Section) (filter t search : String) :
    filteredSections search filter t secs = filteredSections (jsTrim search) filter t secs ∧
    (jsTrim search = "" →
      filteredSections search filter t secs = filteredSections "" filter t secs) := by
  constructor
  · unfold filteredSections
    rw [jsTrim_idem]
  · intro h
    have h0 : jsTrim "" = "" := rfl
    unfold filteredSections
    rw [h, h0]

theorem jsonBeq_str_true_iff (a : String) (v : JsonVal) :
    jsonBeq (JsonVal.str a) v = true ↔ v = JsonVal.str a := by
  cases v with
  | null => unfold jsonBeq; simp
  | bool b => unfold jsonBeq; simp
  | num n => unfold jsonBeq; simp
  | str b =>
    unfold jsonBeq
    constructor
    · intro h
      have hab : a = b := by simpa using h
      subst hab
      rfl
    · intro h
      injection h with h'
      subst h'
      simp
  | arr xs => unfold jsonBeq; simp
  | obj fs => unfold jsonBeq; simp

theorem mem_insertIdx_sub {α : Type} (l : List α) (n : Nat) (b x : α)
    (hx : x ∈ l.insertIdx n b) : x = b ∨ x ∈ l := by
  induction n generalizing l with
  | zero =>
    have h0 : l.insertIdx 0 b = b :: l := by simp [List.insertIdx]
    rw [h0] at hx
    exact List.mem_cons.mp hx
  | succ m ih =>
    cases l with
    | nil =>
      have h0 : ([] : List α).insertIdx (m + 1) b = [] := by simp [List.insertIdx]
      rw [h0] at hx
      simp at hx
    | cons a t =>
      have h0 : (a :: t).insertIdx (m + 1) b = a :: t.insertIdx m b := by
        simp [List.insertIdx]
      rw [h0] at hx
      rcases List.mem_cons.mp hx with hx | hx
      · exact Or.inr (by simp [hx])
      · rcases ih t hx with h | h
        · exact Or.inl h
        · exact Or.inr (by simp [h])

theorem mem_eraseIdx_sub {α : Type} (l : List α) (n : Nat) (x : α)
    (hx : x ∈ l.eraseIdx n) : x ∈ l := by
  induction l generalizing n with
  | nil => simp [List.eraseIdx] at hx
  | cons a t ih =>
    cases n with
    | zero => simp only [List.eraseIdx] at hx; simp [hx]
    | succ m =>
      simp only [List.eraseIdx, List.mem_cons] at hx
      rcases hx with hx | hx
      · simp [hx]
      · exact List.mem_cons_of_mem a (ih m hx)

theorem arrayMove_subset {α : Type} (l : List α) (f t : Int) :
    ∀ x ∈ arrayMove l f t, x ∈ l := by
  intro x hx
  unfold arrayMove at hx
  by_cases h : clampIdx l.length f = clampIdx l.length t
  · rw [if_pos h] at hx; exact hx
  · rw [if_neg h] at hx
    cases hg : l.get? (clampIdx l.length f) with
    | none => rw [hg] at hx; exact hx
    | some y =>
      rw [hg] at hx
      rcases mem_insertIdx_sub _ _ _ _ hx with h1 | h1
      · rw [h1]; exact List.get?_mem hg
      · exact mem_eraseIdx_sub _ _ _ h1

theorem sections_map_good (l : List Section) (f : Section → Section)
    (hid : ∀ s, (f s).id = s.id)
    (hit : ∀ s ∈ l, (∀ it ∈ s.items, goodId it.id) → ∀ it ∈ (f s).items, goodId it.id)
    (hnd : (l.map Section.id).Nodup)
    (hgood : ∀ s ∈ l, goodId s.id ∧ ∀ it ∈ s.items, goodId it.id) :
    (l.map f).length = l.length ∧
    ((l.map f).map Section.id).Nodup ∧
    (∀ s ∈ l.map f, goodId s.id ∧ ∀ it ∈ s.items, goodId it.id) := by
  refine ⟨by simp, ?_, ?_⟩
  · rw [List.map_map]
    have heq : l.map (Section.id ∘ f) = l.map Section.id :=
      List.map_congr_left (fun s _ => hid s)
    rw [heq]
    exact hnd
  · intro s' hs'
    obtain ⟨s, hsl, rfl⟩ := List.mem_map.mp hs'
    exact ⟨by rw [hid]; exact (hgood s hsl).1, hit s hsl (hgood s hsl).2⟩

theorem filter_not_beq_length (l : List Section) (target : JsonVal)
    (hnd : (l.map Section.id).Nodup)
    (hgood : ∀ s ∈ l, goodId s.id) :
    l.length ≤ (l.filter (fun s => !(jsonBeq s.id target))).length + 1 := by
  induction l with
  | nil => simp
  | cons s rest ih =>
    simp only [List.map_cons, List.nodup_cons] at hnd
    by_cases hb : jsonBeq s.id target = true
    · have hfil : rest.filter (fun s' => !(jsonBeq s'.id target)) = rest := by
        apply List.filter_eq_self.mpr
        intro s' hs'
        obtain ⟨a, ha, hida⟩ := hgood s (by simp)
        obtain ⟨a', ha', hida'⟩ := hgood s' (by simp [hs'])
        rw [hida, jsonBeq_str_true_iff] at hb
        by_contra hc
        have hc' : jsonBeq s'.id target = true := by
          cases hx0 : jsonBeq s'.id target with
          | false => exact absurd (by simp [hx0]) hc
          | true => rfl
        rw [hida', jsonBeq_str_true_iff] at hc'
        have hideq : s.id = s'.id := by rw [hida, hida', ← hb, ← hc']
        exact hnd.1 (by rw [hideq]; exact List.mem_map_of_mem Section.id hs')
      simp [List.filter_cons, hb, hfil]
    · have hrest := ih hnd.2 (fun s' hs' => hgood s' (by simp [hs']))
      have hb' : jsonBeq s.id target = false := by
        cases hx0 : jsonBeq s.id target with
        | false => rfl
        | true => exact absurd hx0 hb
      simp [List.filter_cons, hb']
      omega

theorem inv_step {st st' : AppState} (hinv : Inv st) (hs : Step st st') : Inv st' := by
  obtain ⟨hlen, hconf, hnd, hgood⟩ := hinv
  cases hs with
  | set_title t => exact ⟨hlen, hconf, hnd, hgood⟩
  | add_section newId hne hfresh =>
    refine ⟨?_, ?_, ?_, ?_⟩
    · simp [addSection]
    · intro ho
      have := hconf ho
      simp [addSection]
      omega
    · simp only [addSection, List.map_append]
      rw [List.nodup_append]
      refine ⟨hnd, List.nodup_singleton _, ?_⟩
      intro x hx hmem
      simp only [List.map_cons, List.map_nil, List.mem_singleton] at hmem
      subst hmem
      exact hfresh hx
    · intro s hs'
      simp only [addSection, List.mem_append, List.mem_singleton] at hs'
      rcases hs' with hs' | hs'
      · exact hgood s hs'
      · subst hs'
        exact ⟨⟨newId, hne, rfl⟩, by intro it hit; simp at hit⟩
  | rename_section target name =>
    obtain ⟨heq, hnd', hgood'⟩ := sections_map_good st.sections
      (fun s => if jsonBeq s.id target then { s with name := name } else s)
      (fun s => by dsimp only; split <;> rfl)
      (fun s _ h => by dsimp only; split <;> exact h)
      hnd hgood
    refine ⟨?_, ?_, hnd', hgood'⟩
    · simp only [renameSection, heq]; exact hlen
    · intro ho
      simp only [renameSection, heq]
      exact hconf ho
  | request_delete target =>
    unfold requestDeleteSection
    by_cases hl : st.sections.length = 1
    · rw [if_pos hl]; exact ⟨hlen, hconf, hnd, hgood⟩
    · rw [if_neg hl]
      refine ⟨hlen, ?_, hnd, hgood⟩
      intro _
      show 2 ≤ st.sections.length
      omega
  | confirm_delete hopen =>
    have h2 := hconf hopen
    refine ⟨?_, ?_, ?_, ?_⟩
    · unfold deleteSectionNow
      cases hc : st.confirm.sectionId with
      | none =>
        simp only [hc]
        show 1 ≤ (st.sections.filter (fun _ => true)).length
        rw [List.filter_true]
        exact hlen
      | some target =>
        simp only [hc]
        have hfl := filter_not_beq_length st.sections target hnd (fun s hs' => (hgood s hs').1)
        omega
    · intro ho
      simp [deleteSectionNow] at ho
    · unfold deleteSectionNow
      exact List.Nodup.sublist (List.Sublist.map Section.id (List.filter_sublist _)) hnd
    · intro s hs'
      unfold deleteSectionNow at hs'
      simp only [List.mem_filter] at hs'
      exact hgood s hs'.1
  | cancel_delete =>
    refine ⟨hlen, ?_, hnd, hgood⟩
    intro ho
    simp [cancelDelete] at ho
  | add_item target newId hne =>
    obtain ⟨heq, hnd', hgood'⟩ := sections_map_good st.sections
      (fun s => if jsonBeq s.id target then
        { s with items := s.items ++
            [{ id := JsonVal.str newId, text := "New item", done := false, dueDate := "" }] }
        else s)
      (fun s => by dsimp only; split <;> rfl)
      (fun s _ h => by
        dsimp only
        split
        · intro it hit
          simp only [List.mem_append, List.mem_singleton] at hit
          rcases hit with hit | hit
          · exact h it hit
          · subst hit; exact ⟨newId, hne, rfl⟩
        · exact h)
      hnd hgood
    refine ⟨?_, ?_, hnd', hgood'⟩
    · simp only [addItem, heq]; exact hlen
    · intro ho
      simp only [addItem, heq]
      exact hconf ho
  | update_item target itemId p =>
    obtain ⟨heq, hnd', hgood'⟩ := sections_map_good st.sections
      (fun s => if jsonBeq s.id target then
        { s with items := s.items.map (fun it =>
            if jsonBeq it.id itemId then applyPatch p it else it) }
        else s)
      (fun s => by dsimp only; split <;> rfl)
      (fun s _ h => by
        dsimp only
        split
        · intro it hit
          obtain ⟨it0, hit0, rfl⟩ := List.mem_map.mp hit
          have hg0 := h it0 hit0
          by_cases hb : jsonBeq it0.id itemId = true
          · simpa [hb, applyPatch] using hg0
          · have hb' : jsonBeq it0.id itemId = false := by
              cases hx0 : jsonBeq it0.id itemId with
              | false => rfl
              | true => exact absurd hx0 hb
            simpa [hb'] using hg0
        · exact h)
      hnd hgood
    refine ⟨?_, ?_, hnd', hgood'⟩
    · simp only [updateItem, heq]; exact hlen
    · intro ho
      simp only [updateItem, heq]
      exact hconf ho
  | delete_item target itemId =>
    obtain ⟨heq, hnd', hgood'⟩ := sections_map_good st.sections
      (fun s => if jsonBeq s.id target then
        { s with items := s.items.filter (fun it => !(jsonBeq it.id itemId)) }
        else s)
      (fun s => by dsimp only; split <;> rfl)
      (fun s _ h => by
        dsimp only
        split
        · intro it hit
          exact h it (List.mem_filter.mp hit).1
        · exact h)
      hnd hgood
    refine ⟨?_, ?_, hnd', hgood'⟩
    · simp only [deleteItem, heq]; exact hlen
    · intro ho
      simp only [deleteItem, heq]
      exact hconf ho
  | clear_done =>
    obtain ⟨heq, hnd', hgood'⟩ := sections_map_good st.sections
      (fun s => { s with items := s.items.filter (fun it => !it.done) })
      (fun s => rfl)
      (fun s _ h => by
        intro it hit
        exact h it (List.mem_filter.mp hit).1)
      hnd hgood
    refine ⟨?_, ?_, hnd', hgood'⟩
    · simp only [clearDone, heq]; exact hlen
    · intro ho
      simp only [clearDone, heq]
      exact hconf ho
  | drag_start sid fromIndex =>
    exact ⟨hlen, hconf, hnd, hgood⟩
  | drop_item target toIndex =>
    unfold onDropItem
    cases hsid : st.drag.sectionId with
    | none => exact ⟨hlen, hconf, hnd, hgood⟩
    | some fromSection =>
      by_cases htr : jsTruthy fromSection = true
      · cases hfi : st.drag.fromIndex with
        | none =>
          simp only [htr, Bool.not_true, Bool.false_eq_true, if_false]
          exact ⟨hlen, hconf, hnd, hgood⟩
        | some fromIndex =>
          by_cases hbe : jsonBeq fromSection target = true
          · simp only [htr, hbe, Bool.not_true, Bool.false_eq_true, if_false]
            obtain ⟨heq, hnd', hgood'⟩ := sections_map_good st.sections
              (fun s => if jsonBeq s.id target then
                { s with items := arrayMove s.items fromIndex toIndex }
                else s)
              (fun s => by dsimp only; split <;> rfl)
              (fun s _ h => by
                dsimp only
                split
                · intro it hit
                  exact h it (arrayMove_subset _ _ _ it hit)
                · exact h)
              hnd hgood
            refine ⟨?_, ?_, hnd', hgood'⟩
            · simp only [heq]; exact hlen
            · intro ho
              simp only [heq]
              exact hconf ho
          · have hbe' : jsonBeq fromSection target = false := by
              cases hx0 : jsonBeq fromSection target with
              | false => rfl
              | true => exact absurd hx0 hbe
            simp only [htr, hbe', Bool.not_true, Bool.not_false, Bool.false_eq_true, if_false,
              if_true]
            exact ⟨hlen, hconf, hnd, hgood⟩
      · have htr' : jsTruthy fromSection = false := by
          cases hx0 : jsTruthy fromSection with
          | false => rfl
          | true => exact absurd hx0 htr
        simp only [htr', Bool.not_false, if_true]
        exact ⟨hlen, hconf, hnd, hgood⟩

theorem inv_seed (sid iid : String) (h1 : sid ≠ "") (h2 : iid ≠ "") :
    Inv (seedState sid iid) := by
  refine ⟨by simp [seedState], by simp [seedState], by simp [seedState], ?_⟩
  intro s hs
  simp only [seedState, List.mem_singleton] at hs
  subst hs
  refine ⟨⟨sid, h1, rfl⟩, ?_⟩
  intro it hit
  simp only [List.mem_singleton] at hit
  subst hit
  exact ⟨iid, h2, rfl⟩

theorem reachable_inv {sid iid : String} {st : AppState} (h1 : sid ≠ "") (h2 : iid ≠ "")
    (h : Reachable (seedState sid iid) st) : Inv st := by
  induction h with
  | refl => exact inv_seed sid iid h1 h2
  | step hr hs ih => exact inv_step ih hs


theorem c10_search_trim_invariant_witness :
    jsTrim "  " = "" ∧
    filteredSections "  " "all" "2024-01-01" [Section.mk (JsonVal.str "s") "General" [itemA]] =
      filteredSections "" "all" "2024-01-01" [Section.mk (JsonVal.str "s") "General" [itemA]] :=
  ⟨rfl, (c10_search_trim_invariant [Section.mk (JsonVal.str "s") "General" [itemA]]
    "all" "2024-01-01" "  ").2 rfl⟩

/-- C1 (amended): every Document reachable from the seed by Store
operations proper — everything the UI can trigger except import — has at
least one section; `requestDeleteSection` refuses the deletion that would
reach zero.  (A successful import does not preserve this: see the
counterexample.) -/
theorem c1_store_sections_nonempty (sid iid : String) (st : AppState)
    (h1 : sid ≠ "") (h2 : iid ≠ "") (h : Reachable (seedState sid iid) st) :
    1 ≤ st.sections.length :=
  (reachable_inv h1 h2 h).1

theorem c1_store_sections_nonempty_witness :
    ("a" : String) ≠ "" ∧ ("b" : String) ≠ "" ∧
    1 ≤ (seedState "a" "b").sections.length :=
  ⟨by decide, by decide,
    c1_store_sections_nonempty "a" "b" (seedState "a" "b") (by decide) (by decide)
      Reachable.refl⟩

/-- C1 counterexample: importing the document `{"sections": []}` succeeds
(`notify("Imported")`) and leaves the Document with zero sections, so the
`sections.length ≥ 1` invariant does not survive every
successful import. -/
theorem c1_counterexample_import_empty :
    (importJSON gen0 (some (JsonVal.obj [("sections", JsonVal.arr [])]))
        (seedState "a" "b")).2 = ImportOutcome.imported ∧
    (importJSON gen0 (some (JsonVal.obj [("sections", JsonVal.arr [])]))
        (seedState "a" "b")).1.sections = [] :=
  ⟨rfl, rfl⟩

theorem migrateItem_roundtrip (g : Gen) (it : Item) (a : String) (ha : a ≠ "")
    (hid : it.id = JsonVal.str a) :
    migrateItem g (itemToJson it) = Except.ok (it, g) := by
  obtain ⟨vid, tx, dn, du⟩ := it
  simp only at hid
  subst hid
  simp [migrateItem, itemToJson, isNullJs, getField, List.lookup, coerceId, coerceText,
    coerceDone, coerceDue, jsCoalesce, jsToString, jsTruthy, jsTruthyOpt, ha]

theorem migrateItems_roundtrip (l : List Item)
    (h : ∀ it ∈ l, goodId it.id) (g : Gen) :
    migrateItems g (l.map itemToJson) = Except.ok (l, g) := by
  induction l generalizing g with
  | nil => rfl
  | cons x xs ih =>
    obtain ⟨a, ha, hid⟩ := h x (by simp)
    simp only [List.map_cons, migrateItems, migrateItem_roundtrip g x a ha hid,
      ih (fun it hit => h it (by simp [hit]))]

theorem migrateSection_roundtrip (g : Gen) (s : Section) (a : String) (ha : a ≠ "")
    (hid : s.id = JsonVal.str a) (hit : ∀ it ∈ s.items, goodId it.id) :
    migrateSection g (sectionToJson s) = Except.ok (s, g) := by
  obtain ⟨vid, nm, its⟩ := s
  simp only at hid hit
  subst hid
  simp only [migrateSection, sectionToJson, isNullJs, getField, List.lookup]
  simp only [show (("id" : String) == "id") = true from rfl,
    show (("id" : String) == "name") = false from rfl,
    show (("id" : String) == "items") = false from rfl,
    show (("name" : String) == "name") = true from rfl,
    show (("name" : String) == "items") = false from rfl,
    show (("items" : String) == "items") = true from rfl]
  simp [coerceId, jsTruthy, ha, jsOr, jsCoalesce, jsToString,
    migrateItems_roundtrip its hit g]

theorem migrateSections_roundtrip (l : List Section)
    (h : ∀ s ∈ l, goodId s.id ∧ ∀ it ∈ s.items, goodId it.id) (g : Gen) :
    migrateSections g (l.map sectionToJson) = Except.ok (l, g) := by
  induction l generalizing g with
  | nil => rfl
  | cons x xs ih =>
    obtain ⟨⟨a, ha, hid⟩, hits⟩ := h x (by simp)
    simp only [List.map_cons, migrateSections, migrateSection_roundtrip g x a ha hid hits,
      ih (fun s hs => h s (by simp [hs]))]

theorem parseDocument_roundtrip (g : Gen) (d : Doc) (ht : d.title ≠ "")
    (hsec : ∀ s ∈ d.sections, goodId s.id ∧ ∀ it ∈ s.items, goodId it.id) :
    parseDocument g (some (docToJson d)) = Except.ok d := by
  obtain ⟨ttl, secs⟩ := d
  simp only at ht hsec
  simp only [parseDocument, docToJson, safeParse, getField, List.lookup]
  simp only [show (("title" : String) == "title") = true from rfl,
    show (("title" : String) == "sections") = false from rfl,
    show (("sections" : String) == "sections") = true from rfl]
  simp [jsTruthy, jsOr, jsToString, ht, migrateSections_roundtrip secs hsec g]

/-- C2 (amended): for every Document produced purely through Store
operations whose title is non-empty, running its serialized form back
through the import pipeline returns it unchanged; an empty title — which
`setTitle("")` can produce — is the one field the coercion alters
(`parsed.title || "Check-It"`). -/
theorem c2_roundtrip_nonempty_title (sid iid : String) (g : Gen) (st : AppState)
    (h1 : sid ≠ "") (h2 : iid ≠ "") (hr : Reachable (seedState sid iid) st)
    (ht : st.title ≠ "") :
    parseDocument g (some (docToJson (Doc.mk st.title st.sections))) =
      Except.ok (Doc.mk st.title st.sections) :=
  parseDocument_roundtrip g (Doc.mk st.title st.sections) ht
    (reachable_inv h1 h2 hr).2.2.2

theorem c2_roundtrip_nonempty_title_witness :
    (seedState "a" "b").title ≠ "" ∧
    parseDocument gen0
        (some (docToJson (Doc.mk (seedState "a" "b").title (seedState "a" "b").sections))) =
      Except.ok (Doc.mk (seedState "a" "b").title (seedState "a" "b").sections) :=
  ⟨by decide,
    c2_roundtrip_nonempty_title "a" "b" gen0 (seedState "a" "b") (by decide) (by decide)
      Reachable.refl (by decide)⟩

/-- C2 counterexample: the Store-reachable Document with the empty title
(one `setTitle("")` from the seed) does not round-trip — the import
coercion turns the empty title into "Check-It". -/
theorem c2_counterexample_empty_title :
    Reachable (seedState "a" "b") c2CexState ∧
    parseDocument gen0 (some (docToJson (Doc.mk c2CexState.title c2CexState.sections))) ≠
      Except.ok (Doc.mk c2CexState.title c2CexState.sections) := by
  constructor
  · exact Reachable.step Reachable.refl (Step.set_title (seedState "a" "b") "")
  · intro h
    have h2 := congrArg (fun e => match e with
      | Except.ok d => Doc.title d
      | Except.error _ => "ERR") h
    exact absurd h2 (by decide)

theorem migrateItems_total (its : List JsonVal)
    (h : ∀ it ∈ its, isNullJs it = false) (g : Gen) :
    ∃ res, migrateItems g its = Except.ok res := by
  induction its generalizing g with
  | nil => exact ⟨([], g), rfl⟩
  | cons it rest ih =>
    have hnn := h it (by simp)
    have hmi : migrateItem g it = Except.ok
        (⟨(coerceId g (getField it "id")).1, coerceText it, coerceDone it, coerceDue it⟩,
         (coerceId g (getField it "id")).2) := by
      simp [migrateItem, hnn]
    obtain ⟨⟨ris, rg⟩, hres⟩ := ih (fun x hx => h x (by simp [hx]))
      ((coerceId g (getField it "id")).2)
    refine ⟨(⟨(coerceId g (getField it "id")).1, coerceText it, coerceDone it,
      coerceDue it⟩ :: ris, rg), ?_⟩
    simp only [migrateItems, hmi, hres]

theorem migrateSection_total (s : JsonVal) (hs : sectionSafe s = true) (g : Gen) :
    ∃ res, migrateSection g s = Except.ok res := by
  unfold sectionSafe at hs
  rw [Bool.and_eq_true] at hs
  obtain ⟨hnn0, hrest⟩ := hs
  have hnn : isNullJs s = false := by
    cases hx : isNullJs s with
    | false => rfl
    | true => rw [hx] at hnn0; simp at hnn0
  cases hitems : jsOr (getField s "items") (JsonVal.arr []) with
  | arr its =>
    rw [hitems] at hrest
    have hall : ∀ it ∈ its, isNullJs it = false := by
      intro it hit
      have hx1 := List.all_eq_true.mp hrest it hit
      cases hx : isNullJs it with
      | false => rfl
      | true => rw [hx] at hx1; simp at hx1
    obtain ⟨⟨ris, rg⟩, hres⟩ := migrateItems_total its hall
      ((coerceId g (getField s "id")).2)
    refine ⟨(⟨(coerceId g (getField s "id")).1,
      jsToString (jsCoalesce (getField s "name") (JsonVal.str "Section")), ris⟩, rg), ?_⟩
    simp only [migrateSection, hnn, Bool.false_eq_true, if_false, hitems, hres]
  | null => rw [hitems] at hrest; simp at hrest
  | bool b => rw [hitems] at hrest; simp at hrest
  | num n => rw [hitems] at hrest; simp at hrest
  | str s0 => rw [hitems] at hrest; simp at hrest
  | obj fs0 => rw [hitems] at hrest; simp at hrest

theorem migrateSections_total (secs : List JsonVal)
    (h : ∀ s ∈ secs, sectionSafe s = true) (g : Gen) :
    ∃ res, migrateSections g secs = Except.ok res := by
  induction secs generalizing g with
  | nil => exact ⟨([], g), rfl⟩
  | cons s rest ih =>
    obtain ⟨⟨sec, g1⟩, hsec⟩ := migrateSection_total s (h s (by simp)) g
    obtain ⟨⟨rs, rg⟩, hres⟩ := ih (fun x hx => h x (by simp [hx])) g1
    exact ⟨(sec :: rs, rg), by simp only [migrateSections, hsec, hres]⟩

/-- C4 (amended): once step 2 passes, the leaf-field coercion is total
provided every element of the `sections` array is non-`null` and its
`items` field — after the `|| []` default — is an array of non-`null`
elements.  Outside that shape the migration map throws a `TypeError`
(property access on `null`, or `.map` on a truthy non-array), so it is
not total for arbitrary step-2-passing values: see the counterexample. -/
theorem c4_migration_total_on_safe (g : Gen) (v : JsonVal) (secs : List JsonVal)
    (hv : jsTruthy v = true)
    (hs : getField v "sections" = some (JsonVal.arr secs))
    (hsafe : ∀ s ∈ secs, sectionSafe s = true) :
    ∃ d : Doc, parseDocument g (some v) = Except.ok d := by
  have hsp : safeParse (some v) JsonVal.null = v := by cases v <;> rfl
  obtain ⟨⟨rs, rg⟩, hres⟩ := migrateSections_total secs hsafe g
  refine ⟨⟨jsToString (jsOr (getField v "title") (JsonVal.str "Check-It")), rs⟩, ?_⟩
  simp only [parseDocument, hsp, hv, if_true, hs, hres]

theorem c4_migration_total_on_safe_witness :
    jsTruthy c4SafeVal = true ∧
    getField c4SafeVal "sections" = some (JsonVal.arr [c4SafeSec]) ∧
    sectionSafe c4SafeSec = true ∧
    ∃ d : Doc, parseDocument gen0 (some c4SafeVal) = Except.ok d :=
  ⟨rfl, rfl, rfl,
    c4_migration_total_on_safe gen0 c4SafeVal [c4SafeSec] rfl rfl
      (by intro s hs; simp only [List.mem_singleton] at hs; subst hs; rfl)⟩

/-- C4 counterexample: two parsed values that pass step 2 but crash the
migration map with a `TypeError` instead of coercing — a `null` element
of `sections`, and a section whose `items` field is the truthy non-array
`5`. -/
theorem c4_counterexample_migration_throws :
    parseDocument gen0 (some (JsonVal.obj [("sections", JsonVal.arr [JsonVal.null])])) =
      Except.error ImportError.crashed ∧
    parseDocument gen0 (some (JsonVal.obj [("sections",
        JsonVal.arr [JsonVal.obj [("items", JsonVal.num 5)]])])) =
      Except.error ImportError.crashed :=
  ⟨rfl, rfl⟩

theorem lookup_objSet_self (fs : List (String × JsonVal)) (k : String) (v : JsonVal) :
    (objSet fs k v).lookup k = some v := by
  unfold objSet
  split
  · next h =>
    revert h
    induction fs with
    | nil => intro h; simp at h
    | cons p rest ih =>
      intro h
      obtain ⟨k0, v0⟩ := p
      simp only [List.any_cons, Bool.or_eq_true] at h
      simp only [List.map_cons]
      by_cases hk : k0 = k
      · subst hk
        rw [if_pos (by simp)]
        simp [List.lookup]
      · have h' : rest.any (fun p => p.1 == k) = true := by
          rcases h with h | h
          · exact absurd (by simpa using h) hk
          · exact h
        rw [if_neg (by simp [hk])]
        simp only [List.lookup, show (k == k0) = false from by
          rw [beq_eq_false_iff_ne]; exact Ne.symm hk]
        exact ih h'
  · next h =>
    revert h
    induction fs with
    | nil => intro h; simp [List.lookup]
    | cons p rest ih =>
      intro h
      obtain ⟨k0, v0⟩ := p
      simp only [List.any_cons, Bool.or_eq_true] at h
      have h1 : (k0 == k) = false := by
        cases hx : (k0 == k) with
        | false => rfl
        | true => exact absurd (Or.inl hx) h
      have h2 : rest.any (fun p => p.1 == k) = false := by
        cases hx : rest.any (fun p => p.1 == k) with
        | false => rfl
        | true => exact absurd (Or.inr hx) h
      simp only [List.cons_append, List.lookup, show (k == k0) = false from by
        rw [beq_eq_false_iff_ne]; intro hkk; subst hkk; simp at h1]
      exact ih (by simp [h2])

theorem lookup_objSet_ne (fs : List (String × JsonVal)) (k k' : String) (v : JsonVal)
    (hne : k' ≠ k) : (objSet fs k v).lookup k' = fs.lookup k' := by
  unfold objSet
  split
  · next h =>
    clear h
    induction fs with
    | nil => rfl
    | cons p rest ih =>
      obtain ⟨k0, v0⟩ := p
      simp only [List.map_cons]
      by_cases hk : k0 = k
      · subst hk
        rw [if_pos (by simp)]
        simp only [List.lookup, show (k' == k0) = false from by
          rw [beq_eq_false_iff_ne]; exact hne]
        exact ih
      · rw [if_neg (by simp [hk])]
        by_cases hk' : k' = k0
        · subst hk'
          simp [List.lookup]
        · simp only [List.lookup, show (k' == k0) = false from by
            rw [beq_eq_false_iff_ne]; exact hk']
          exact ih
  · next h =>
    clear h
    induction fs with
    | nil =>
      simp only [List.nil_append, List.lookup, show (k' == k) = false from by
        rw [beq_eq_false_iff_ne]; exact hne]
    | cons p rest ih =>
      obtain ⟨k0, v0⟩ := p
      by_cases hk' : k' = k0
      · subst hk'
        simp [List.lookup]
      · simp only [List.cons_append, List.lookup, show (k' == k0) = false from by
          rw [beq_eq_false_iff_ne]; exact hk']
        exact ih

/-- C3 counterexample: the initial load and the import pipeline do not
apply the same coercion to the same slot text.  On `c3Slot` the load
keeps the stored sections verbatim (no `name` field is added) and always
titles the document "Check-It", while the import pipeline defaults the
missing section name to "Section" and coerces the stored title
"My List". -/
theorem c3_counterexample_load_differs :
    initialSections "s" "i" (some c3Slot) =
      Except.ok [JsonVal.obj [("id", JsonVal.str "a"), ("items", JsonVal.arr [])]] ∧
    parseDocument gen0 (some c3Slot) =
      Except.ok (Doc.mk "My List" [Section.mk (JsonVal.str "a") "Section" []]) ∧
    initialTitle ≠ "My List" ∧
    getField (JsonVal.obj [("id", JsonVal.str "a"), ("items", JsonVal.arr [])]) "name" = none :=
  ⟨rfl, rfl, by decide, rfl⟩

/-- C3 (amended): when the persistence slot is absent, unparseable, or has
no array-valued `sections`, the initial load uses the seed sections and
the fixed title "Check-It"; for loaded items the leaf fields `text`,
`done` and `dueDate` are coerced by exactly the expressions the import
pipeline uses — but the title is never restored from the slot, and
section `id`/`name` and item `id` are kept verbatim by the load instead
of being coerced. -/
theorem c3_load_vs_import (sid iid : String) (r : Option JsonVal) (it : JsonVal) (g : Gen)
    (hrej : loadAccepts (safeParse r JsonVal.null) = false)
    (hnn : isNullJs it = false) :
    initialSections sid iid r = Except.ok (seedJson sid iid) ∧
    initialTitle = "Check-It" ∧
    (∃ fs, loadItem it = Except.ok fs ∧
      fs.lookup "text" = some (JsonVal.str (coerceText it)) ∧
      fs.lookup "done" = some (JsonVal.bool (coerceDone it)) ∧
      fs.lookup "dueDate" = some (JsonVal.str (coerceDue it))) ∧
    migrateItem g it = Except.ok
      (⟨(coerceId g (getField it "id")).1, coerceText it, coerceDone it, coerceDue it⟩,
       (coerceId g (getField it "id")).2) := by
  refine ⟨?_, rfl, ?_, ?_⟩
  · unfold initialSections
    dsimp only
    rw [hrej]
    rfl
  · refine ⟨objSet (objSet (objSet (spreadFields it)
      "text" (JsonVal.str (coerceText it)))
      "done" (JsonVal.bool (coerceDone it)))
      "dueDate" (JsonVal.str (coerceDue it)), ?_, ?_, ?_, ?_⟩
    · simp [loadItem, hnn]
    · rw [lookup_objSet_ne _ _ _ _ (by decide), lookup_objSet_ne _ _ _ _ (by decide),
        lookup_objSet_self]
    · rw [lookup_objSet_ne _ _ _ _ (by decide), lookup_objSet_self]
    · rw [lookup_objSet_self]
  · simp [migrateItem, hnn]

theorem c3_load_vs_import_witness :
    loadAccepts (safeParse none JsonVal.null) = false ∧
    isNullJs (JsonVal.obj [("text", JsonVal.num 7)]) = false ∧
    (initialSections "a" "b" none = Except.ok (seedJson "a" "b") ∧
      initialTitle = "Check-It" ∧
      (∃ fs, loadItem (JsonVal.obj [("text", JsonVal.num 7)]) = Except.ok fs ∧
        fs.lookup "text" = some (JsonVal.str (coerceText (JsonVal.obj [("text", JsonVal.num 7)]))) ∧
        fs.lookup "done" = some (JsonVal.bool (coerceDone (JsonVal.obj [("text", JsonVal.num 7)]))) ∧
        fs.lookup "dueDate" = some (JsonVal.str (coerceDue (JsonVal.obj [("text", JsonVal.num 7)])))) ∧
      migrateItem gen0 (JsonVal.obj [("text", JsonVal.num 7)]) = Except.ok
        (⟨(coerceId gen0 (getField (JsonVal.obj [("text", JsonVal.num 7)]) "id")).1,
          coerceText (JsonVal.obj [("text", JsonVal.num 7)]),
          coerceDone (JsonVal.obj [("text", JsonVal.num 7)]),
          coerceDue (JsonVal.obj [("text", JsonVal.num 7)])⟩,
         (coerceId gen0 (getField (JsonVal.obj [("text", JsonVal.num 7)]) "id")).2)) :=
  ⟨rfl, rfl,
    c3_load_vs_import "a" "b" none (JsonVal.obj [("text", JsonVal.num 7)]) gen0 rfl rfl⟩

end CheckIt
